import Mathlib

/-!
Verification of the AuctionHousesApp scraping core and frontend query hooks.

The durable schema (tables auctions, lots, artists, scraping_logs with their
UNIQUE and CHECK constraints) is embedded from the SQL migration script in the
repository. The scrape orchestration code itself (upsert engine, job runner,
scheduler, normalizer) is not present in the repository sources, only its plan
document and the schema; those components are modelled from the spec, as
marked on each definition. The frontend hook gates are embedded from
frontend/src/hooks/useLots.ts and the sibling hook files.
-/

namespace AuctionApp

/-! ## Frontend hooks (useLots.ts, useAuctions.ts, useHouses.ts) -/

/-- Embeds the enabled gate of useSearchLots: the JS expression
is not-empty query and query.length greater than 2. -/
def useSearchLotsEnabled (query : String) : Bool :=
  !query.isEmpty && decide (query.length > 2)

/-- Embeds the enabled gate of useLot: the JS double-negation of a numeric id,
which is true exactly for a nonzero id. -/
def useLotEnabled (id : Int) : Bool :=
  id != 0

/-- Embeds the enabled gate of useAuction. -/
def useAuctionEnabled (id : Int) : Bool :=
  id != 0

/-- Embeds the enabled gate of useHouse. -/
def useHouseEnabled (id : Int) : Bool :=
  id != 0

/-! ## Run ledger states (scraping_logs table of the schema) -/

/-- Embeds the CHECK constraint of the scraping_logs table: status must be one
of started, completed, failed, cancelled. -/
def scrapingLogStatusAllowed (s : String) : Bool :=
  s == "started" || s == "completed" || s == "failed" || s == "cancelled"

/-- Terminal statuses of a scraping log record. -/
def scrapingLogTerminal (s : String) : Bool :=
  s == "completed" || s == "failed" || s == "cancelled"

/-- Run ledger record, after the scraping_logs table of the schema. -/
structure ScrapingLog where
  house_id : Nat
  task_type : String
  status : String
  items_processed : Nat
  items_created : Nat
  items_updated : Nat
deriving DecidableEq

/-- Modelled from the spec: the Run Ledger appends one record per job
execution, with the job-start checkpoint writing the initial status; the
schema only allows the status value started at that point. -/
def mkScrapingLog (house : Nat) (task : String) : ScrapingLog :=
  ⟨house, task, "started", 0, 0, 0⟩

/-- Modelled from the spec: the only status transitions of a scraping log
record go from the start status to one terminal status; terminal records are
never transitioned further. -/
def scrapingLogStep (fromStatus toStatus : String) : Bool :=
  fromStatus == "started" && scrapingLogTerminal toStatus

/-! ## Canonical auctions and the upsert engine -/

/-- Result reported by the upsert engine for one canonical candidate. -/
inductive UpsertResult where
  | created
  | updated
  | unchanged
deriving DecidableEq

/-- Canonical auction record, after the auctions table of the schema: internal
id (SERIAL PRIMARY KEY), natural key (house_id, external_id) from the UNIQUE
constraint, a representative set of mutable fields, and the created_at and
updated_at timestamps maintained by the update trigger. -/
structure CanonicalAuction where
  id : Nat
  house_id : Nat
  external_id : String
  title : String
  status : String
  start_date : Option Nat
  total_lots : Nat
  created_at : Nat
  updated_at : Nat
deriving DecidableEq

/-- Normalized auction candidate produced for one raw item: the natural key
plus the mutable fields, with no internal id or timestamps. -/
structure AuctionCandidate where
  house_id : Nat
  external_id : String
  title : String
  status : String
  start_date : Option Nat
  total_lots : Nat
deriving DecidableEq

/-- Durable store of auction rows plus the next SERIAL id. -/
structure AuctionStore where
  records : List CanonicalAuction
  nextId : Nat
deriving DecidableEq

def emptyAuctionStore : AuctionStore :=
  ⟨[], 1⟩

/-- Natural key of a candidate. -/
def auctionKey (c : AuctionCandidate) : Nat × String :=
  (c.house_id, c.external_id)

/-- Natural-key match between a candidate and a stored record. -/
def auctionKeyMatches (c : AuctionCandidate) (a : CanonicalAuction) : Bool :=
  a.house_id == c.house_id && a.external_id == c.external_id

/-- Equality of the designated mutable fields between a candidate and a
stored record. -/
def auctionMutEq (c : AuctionCandidate) (a : CanonicalAuction) : Bool :=
  a.title == c.title && a.status == c.status &&
    a.start_date == c.start_date && a.total_lots == c.total_lots

/-- Equality of the mutable fields of two candidates. -/
def candMutEq (c d : AuctionCandidate) : Bool :=
  c.title == d.title && c.status == d.status &&
    c.start_date == d.start_date && c.total_lots == d.total_lots

/-- Overwrite only the designated mutable fields of a stored record, letting
the trigger refresh updated_at; id, natural key and created_at are kept. -/
def auctionApplyMutable (now : Nat) (c : AuctionCandidate) (a : CanonicalAuction) :
    CanonicalAuction :=
  { a with
      title := c.title
      status := c.status
      start_date := c.start_date
      total_lots := c.total_lots
      updated_at := now }

/-- Fresh row for an inserted candidate. -/
def mkAuctionRecord (id now : Nat) (c : AuctionCandidate) : CanonicalAuction :=
  { id := id, house_id := c.house_id, external_id := c.external_id,
    title := c.title, status := c.status, start_date := c.start_date,
    total_lots := c.total_lots, created_at := now, updated_at := now }

/-- Lookup by natural key. -/
def auctionFind (c : AuctionCandidate) (s : AuctionStore) : Option CanonicalAuction :=
  s.records.find? (auctionKeyMatches c)

/-- Modelled from the spec: the upsert engine performs one transactional
read-modify-write by natural key. No match inserts and reports created; a
match with differing mutable fields overwrites only those fields and reports
updated; a match whose mutable fields already agree leaves the store as it is
and is not reported as an update, which is what makes the second-run counts of
the idempotence property come out as the spec requires. -/
def upsertAuction (now : Nat) (c : AuctionCandidate) (s : AuctionStore) :
    AuctionStore × UpsertResult :=
  match auctionFind c s with
  | none =>
    (⟨s.records ++ [mkAuctionRecord s.nextId now c], s.nextId + 1⟩, UpsertResult.created)
  | some a =>
    if auctionMutEq c a then
      (s, UpsertResult.unchanged)
    else
      (⟨s.records.map fun r =>
          if auctionKeyMatches c r then auctionApplyMutable now c r else r,
        s.nextId⟩, UpsertResult.updated)

/-- Serialized sequence of upserts; per-key atomicity of the engine reduces
any concurrent interleaving of runs to such a sequence. -/
def applyAuctionOps : List (Nat × AuctionCandidate) → AuctionStore → AuctionStore
  | [], s => s
  | (now, c) :: rest, s => applyAuctionOps rest (upsertAuction now c s).1

/-- Number of stored auctions carrying one given natural key. -/
def auctionKeyCount (h : Nat) (e : String) (s : AuctionStore) : Nat :=
  s.records.countP fun a => a.house_id == h && a.external_id == e

/-- Uniqueness invariant of the UNIQUE(house_id, external_id) constraint. -/
def AuctionKeysUnique (s : AuctionStore) : Prop :=
  ∀ h e, auctionKeyCount h e s ≤ 1

/-! ## Canonical lots -/

/-- Canonical lot record, after the lots table of the schema, with the
natural key (auction_id, lot_number) from the UNIQUE constraint. -/
structure CanonicalLot where
  id : Nat
  auction_id : Nat
  lot_number : String
  title : String
  final_price : Option Nat
  sold : Bool
  created_at : Nat
  updated_at : Nat
deriving DecidableEq

/-- Normalized lot candidate. -/
structure LotCandidate where
  auction_id : Nat
  lot_number : String
  title : String
  final_price : Option Nat
  sold : Bool
deriving DecidableEq

/-- Durable store of lot rows plus the next SERIAL id. -/
structure LotStore where
  records : List CanonicalLot
  nextId : Nat
deriving DecidableEq

def emptyLotStore : LotStore :=
  ⟨[], 1⟩

def lotKeyMatches (c : LotCandidate) (l : CanonicalLot) : Bool :=
  l.auction_id == c.auction_id && l.lot_number == c.lot_number

def lotMutEq (c : LotCandidate) (l : CanonicalLot) : Bool :=
  l.title == c.title && l.final_price == c.final_price && l.sold == c.sold

def lotApplyMutable (now : Nat) (c : LotCandidate) (l : CanonicalLot) : CanonicalLot :=
  { l with
      title := c.title
      final_price := c.final_price
      sold := c.sold
      updated_at := now }

def mkLotRecord (id now : Nat) (c : LotCandidate) : CanonicalLot :=
  { id := id, auction_id := c.auction_id, lot_number := c.lot_number,
    title := c.title, final_price := c.final_price, sold := c.sold,
    created_at := now, updated_at := now }

def lotFind (c : LotCandidate) (t : LotStore) : Option CanonicalLot :=
  t.records.find? (lotKeyMatches c)

/-- Modelled from the spec: same create-versus-update discipline for lots as
for auctions, keyed by (auction_id, lot_number). -/
def upsertLot (now : Nat) (c : LotCandidate) (t : LotStore) : LotStore × UpsertResult :=
  match lotFind c t with
  | none =>
    (⟨t.records ++ [mkLotRecord t.nextId now c], t.nextId + 1⟩, UpsertResult.created)
  | some l =>
    if lotMutEq c l then
      (t, UpsertResult.unchanged)
    else
      (⟨t.records.map fun r =>
          if lotKeyMatches c r then lotApplyMutable now c r else r,
        t.nextId⟩, UpsertResult.updated)

def applyLotOps : List (Nat × LotCandidate) → LotStore → LotStore
  | [], t => t
  | (now, c) :: rest, t => applyLotOps rest (upsertLot now c t).1

def lotKeyCount (aid : Nat) (n : String) (t : LotStore) : Nat :=
  t.records.countP fun l => l.auction_id == aid && l.lot_number == n

/-- Uniqueness invariant of the UNIQUE(auction_id, lot_number) constraint. -/
def LotKeysUnique (t : LotStore) : Prop :=
  ∀ aid n, lotKeyCount aid n t ≤ 1

/-! ## Scrape runs and jobs -/

/-- Counts tallied by the run ledger for one job. -/
structure RunCounts where
  processed : Nat
  created : Nat
  updated : Nat
deriving DecidableEq

/-- Modelled from the spec: one scrape run upserts the normalized items in
the order the adapter yields them and tallies created and updated as the
upsert engine reports. -/
def runAuctionScrape (now : Nat) : List AuctionCandidate → AuctionStore →
    AuctionStore × RunCounts
  | [], s => (s, ⟨0, 0, 0⟩)
  | c :: rest, s =>
    let step := upsertAuction now c s
    let next := runAuctionScrape now rest step.1
    (next.1,
     ⟨next.2.processed + 1,
      next.2.created + (if step.2 = UpsertResult.created then 1 else 0),
      next.2.updated + (if step.2 = UpsertResult.updated then 1 else 0)⟩)

/-- Pairwise-distinct natural keys among the items of one run. -/
def AuctionKeysDistinct (items : List AuctionCandidate) : Prop :=
  items.Pairwise fun a b => auctionKey a ≠ auctionKey b

/-- Parse outcome of one raw item yielded by the adapter. -/
abbrev RawParse := Except String AuctionCandidate

/-- Result of the job-entry adapter call: either the finite item sequence, or
a fatal error that prevents producing any item at all. -/
abbrev FetchResult := Except String (List RawParse)

def isParseFailure : RawParse → Bool
  | Except.error _ => true
  | Except.ok _ => false

/-- Outcome recorded for one job: final status, counts, error summary. -/
structure JobOutcome where
  status : String
  processed : Nat
  created : Nat
  updated : Nat
  errors : List String
deriving DecidableEq

/-- Modelled from the spec: per-item failures are caught, recorded in the
error summary, and processing continues with the next item; the job itself
still completes. -/
def runJobItems (now : Nat) : List RawParse → AuctionStore → AuctionStore × JobOutcome
  | [], s => (s, ⟨"completed", 0, 0, 0, []⟩)
  | Except.error msg :: rest, s =>
    let next := runJobItems now rest s
    (next.1, { next.2 with processed := next.2.processed + 1,
                           errors := msg :: next.2.errors })
  | Except.ok c :: rest, s =>
    let step := upsertAuction now c s
    let next := runJobItems now rest step.1
    (next.1, { next.2 with
      processed := next.2.processed + 1,
      created := next.2.created + (if step.2 = UpsertResult.created then 1 else 0),
      updated := next.2.updated + (if step.2 = UpsertResult.updated then 1 else 0) })

/-- Modelled from the spec: only a failure of the job-entry adapter call marks
the whole job failed; otherwise the items are processed one by one. -/
def runJob (now : Nat) (fetch : FetchResult) (s : AuctionStore) :
    AuctionStore × JobOutcome :=
  match fetch with
  | Except.error msg => (s, ⟨"failed", 0, 0, 0, [msg]⟩)
  | Except.ok items => runJobItems now items s

/-! ## Multi-source system runs (isolation) -/

/-- Stored record with the internal id blanked, used to compare stores up to
SERIAL id assignment. -/
def eraseAuctionId (a : CanonicalAuction) : CanonicalAuction :=
  { a with id := 0 }

/-- View of the rows of one house, up to internal id assignment. -/
def houseView (b : Nat) (s : AuctionStore) : List CanonicalAuction :=
  (s.records.filter fun r => r.house_id == b).map eraseAuctionId

/-- A fetch is well formed for a source when every successfully parsed item
belongs to that source. -/
def fetchWellFormed (src : Nat) (f : FetchResult) : Bool :=
  match f with
  | Except.error _ => true
  | Except.ok items => items.all fun it =>
      match it with
      | Except.error _ => true
      | Except.ok c => c.house_id == src

def sysWellFormed (sys : List (Nat × FetchResult)) : Bool :=
  sys.all fun p => fetchWellFormed p.1 p.2

/-- Modelled from the spec: the scheduler dispatches one job per source; jobs
commit into the shared durable store and each job appends its outcome to the
run ledger. -/
def runSystem (now : Nat) : List (Nat × FetchResult) → AuctionStore →
    AuctionStore × List (Nat × JobOutcome)
  | [], s => (s, [])
  | (src, fetch) :: rest, s =>
    let step := runJob now fetch s
    let next := runSystem now rest step.1
    (next.1, (src, step.2) :: next.2)

/-- Replace the fetch of one source by a fatal adapter failure. -/
def injectFailure (bad : Nat) (msg : String) (sys : List (Nat × FetchResult)) :
    List (Nat × FetchResult) :=
  sys.map fun p => if p.1 == bad then (p.1, Except.error msg) else p

/-- Agreement of two ledger entries: same source, and identical outcome
whenever the source is not the one with the injected failure. -/
def OutcomePairAgree (bad : Nat) (p q : Nat × JobOutcome) : Prop :=
  p.1 = q.1 ∧ (p.1 ≠ bad → p.2 = q.2)

/-! ## Orchestrator and scheduler -/

inductive OrchJobState where
  | queued
  | running
  | completed
  | failed
  | cancelled
deriving DecidableEq

structure OrchJob where
  jobId : Nat
  source : Nat
  state : OrchJobState
deriving DecidableEq

/-- Scheduler state: the job ledger and the next job id. -/
structure Orch where
  jobs : List OrchJob
  nextId : Nat
deriving DecidableEq

def emptyOrch : Orch :=
  ⟨[], 1⟩

/-- A job that is still in flight (queued or running). -/
def jobActive (j : OrchJob) : Bool :=
  j.state == OrchJobState.queued || j.state == OrchJobState.running

def jobTerminal : OrchJobState → Bool
  | OrchJobState.completed => true
  | OrchJobState.failed => true
  | OrchJobState.cancelled => true
  | _ => false

def activeForSource (o : Orch) (src : Nat) : Option OrchJob :=
  o.jobs.find? fun j => j.source == src && jobActive j

inductive TriggerResult where
  | accepted (jobId : Nat)
  | rejected (existingJobId : Nat)
deriving DecidableEq

/-- Modelled from the spec: an on-demand trigger for a source that already
has a queued or running job is rejected as an idempotent no-op returning the
identity of the existing job; otherwise a fresh job is enqueued. -/
def triggerSource (o : Orch) (src : Nat) : Orch × TriggerResult :=
  match activeForSource o src with
  | some j => (o, TriggerResult.rejected j.jobId)
  | none =>
    (⟨o.jobs ++ [⟨o.nextId, src, OrchJobState.queued⟩], o.nextId + 1⟩,
     TriggerResult.accepted o.nextId)

/-- Modelled from the spec: a worker pulls a queued job and starts running it. -/
def startJob (o : Orch) (jid : Nat) : Orch :=
  ⟨o.jobs.map fun j =>
      if j.jobId == jid && j.state == OrchJobState.queued then
        { j with state := OrchJobState.running }
      else j,
    o.nextId⟩

/-- Modelled from the spec: a running job ends in one terminal state. -/
def finishJob (o : Orch) (jid : Nat) (final : OrchJobState) : Orch :=
  ⟨o.jobs.map fun j =>
      if j.jobId == jid && j.state == OrchJobState.running && jobTerminal final then
        { j with state := final }
      else j,
    o.nextId⟩

inductive OrchOp where
  | trigger (src : Nat)
  | start (jobId : Nat)
  | finish (jobId : Nat) (final : OrchJobState)
deriving DecidableEq

def applyOrchOp (o : Orch) : OrchOp → Orch
  | OrchOp.trigger src => (triggerSource o src).1
  | OrchOp.start jid => startJob o jid
  | OrchOp.finish jid final => finishJob o jid final

def applyOrchOps : Orch → List OrchOp → Orch
  | o, [] => o
  | o, op :: rest => applyOrchOps (applyOrchOp o op) rest

def activeCount (o : Orch) (src : Nat) : Nat :=
  o.jobs.countP fun j => j.source == src && jobActive j

def runningCount (o : Orch) (src : Nat) : Nat :=
  o.jobs.countP fun j => j.source == src && j.state == OrchJobState.running

/-- Scheduler invariant: at most one in-flight job per source. -/
def OrchInv (o : Orch) : Prop :=
  ∀ src, activeCount o src ≤ 1

/-! ## Artist resolution (artists table of the schema) -/

/-- Artist record, after the artists table of the schema; the schema declares
verified BOOLEAN DEFAULT FALSE. -/
structure Artist where
  id : Nat
  name : String
  verified : Bool
  created_at : Nat
deriving DecidableEq

/-- Modelled from the spec: deterministic name normalization used for the
exact normalized-name match. -/
def normalizeArtistName (s : String) : String :=
  s.trim.toLower

structure ArtistStore where
  artists : List Artist
  nextId : Nat
deriving DecidableEq

def emptyArtistStore : ArtistStore :=
  ⟨[], 1⟩

def artistFind (name : String) (t : ArtistStore) : Option Artist :=
  t.artists.find? fun a => a.name == normalizeArtistName name

/-- Modelled from the spec: artist resolution first looks for an exact
normalized-name match among existing records and returns it; only when none
matches it creates a record, unverified, matching the schema default of the
verified column. -/
def resolveArtist (now : Nat) (name : String) (t : ArtistStore) : ArtistStore × Nat :=
  match artistFind name t with
  | some a => (t, a.id)
  | none =>
    (⟨t.artists ++ [⟨t.nextId, normalizeArtistName name, false, now⟩], t.nextId + 1⟩,
     t.nextId)

/-! ## Concrete data for the worked examples -/

/-- First run of the idempotence example: two fresh auctions of source 1. -/
def exFirstRun : List AuctionCandidate :=
  [⟨1, "101", "Spring Sale", "upcoming", none, 0⟩,
   ⟨1, "102", "Summer Sale", "upcoming", none, 0⟩]

/-- Second run of the idempotence example: the title of external id 101
changed upstream, external id 102 is unchanged. -/
def exSecondRun : List AuctionCandidate :=
  [⟨1, "101", "Spring Sale (Updated)", "upcoming", none, 0⟩,
   ⟨1, "102", "Summer Sale", "upcoming", none, 0⟩]

/-- Partial-failure example: five raw auctions where item 3 fails parsing. -/
def exPartialItems : List RawParse :=
  [Except.ok ⟨1, "1", "Lot Sale 1", "upcoming", none, 0⟩,
   Except.ok ⟨1, "2", "Lot Sale 2", "upcoming", none, 0⟩,
   Except.error "parse failure at item 3",
   Except.ok ⟨1, "4", "Lot Sale 4", "upcoming", none, 0⟩,
   Except.ok ⟨1, "5", "Lot Sale 5", "upcoming", none, 0⟩]

/-- Stored record used by the C5 counterexample. -/
def exStoredAuction : CanonicalAuction :=
  ⟨7, 1, "x", "Old Masters", "upcoming", none, 0, 3, 3⟩

def exStore : AuctionStore :=
  ⟨[exStoredAuction], 8⟩

/-- Candidate with the same natural key and identical mutable fields. -/
def exIdenticalCand : AuctionCandidate :=
  ⟨1, "x", "Old Masters", "upcoming", none, 0⟩

/-- Candidate with the same natural key and a changed title. -/
def exChangedCand : AuctionCandidate :=
  ⟨1, "x", "Old Masters II", "upcoming", none, 0⟩

/-- Lot candidate used by the C1 witness. -/
def exLotCand : LotCandidate :=
  ⟨1, "7", "Bronze Figure", none, false⟩

/-- Orchestrator state with one running job for source 1. -/
def exRunningOrch : Orch :=
  ⟨[⟨5, 1, OrchJobState.running⟩], 6⟩

/-- Two-source system of the isolation example. -/
def exSys : List (Nat × FetchResult) :=
  [(1, Except.ok [Except.ok ⟨1, "a1", "A One", "upcoming", none, 0⟩]),
   (2, Except.ok [Except.ok ⟨2, "b1", "B One", "upcoming", none, 0⟩])]

/-! ## General list lemmas used by the development -/

theorem findMapComm (p : β → Bool) (f : α → β) (l : List α) :
    (l.map f).find? p = (l.find? fun a => p (f a)).map f := by
  induction l with
  | nil => rfl
  | cons a t ih =>
    simp only [List.map_cons, List.find?]
    cases h : p (f a)
    · simpa [h] using ih
    · simp [h]

theorem findFilterComm (p q : α → Bool) (l : List α)
    (himp : ∀ a, p a = true → q a = true) :
    l.find? p = (l.filter q).find? p := by
  induction l with
  | nil => rfl
  | cons a t ih =>
    cases hq : q a
    · have hp : p a = false := by
        cases hp : p a
        · rfl
        · exact absurd (himp a hp) (by simp [hq])
      simp [List.filter_cons, hq, List.find?, hp, ih]
    · cases hp : p a
      · simp [List.filter_cons, hq, List.find?, hp, ih]
      · simp [List.filter_cons, hq, List.find?, hp]

theorem filterMapComm (q : α → Bool) (f : α → α) (l : List α)
    (hq : ∀ a, q (f a) = q a) :
    (l.map f).filter q = (l.filter q).map f := by
  induction l with
  | nil => rfl
  | cons a t ih =>
    cases h : q a
    · simp [List.filter_cons, h, hq, ih]
    · simp [List.filter_cons, h, hq, ih]

theorem mapFixId (f : α → α) (l : List α) (h : ∀ a ∈ l, f a = a) :
    l.map f = l := by
  induction l with
  | nil => rfl
  | cons a t ih =>
    simp only [List.map_cons]
    rw [h a (by simp), ih fun x hx => h x (by simp [hx])]

/-! ## Case equations of the upsert engine -/

theorem upsertAuction_none (now : Nat) (c : AuctionCandidate) (s : AuctionStore)
    (h : auctionFind c s = none) :
    upsertAuction now c s =
      (⟨s.records ++ [mkAuctionRecord s.nextId now c], s.nextId + 1⟩,
       UpsertResult.created) := by
  simp [upsertAuction, h]

theorem upsertAuction_some_eq (now : Nat) (c : AuctionCandidate) (s : AuctionStore)
    (a : CanonicalAuction) (h : auctionFind c s = some a)
    (hm : auctionMutEq c a = true) :
    upsertAuction now c s = (s, UpsertResult.unchanged) := by
  simp [upsertAuction, h, hm]

theorem upsertAuction_some_ne (now : Nat) (c : AuctionCandidate) (s : AuctionStore)
    (a : CanonicalAuction) (h : auctionFind c s = some a)
    (hm : auctionMutEq c a = false) :
    upsertAuction now c s =
      (⟨s.records.map fun r =>
          if auctionKeyMatches c r then auctionApplyMutable now c r else r,
        s.nextId⟩, UpsertResult.updated) := by
  simp [upsertAuction, h, hm]

theorem upsertLot_none (now : Nat) (c : LotCandidate) (t : LotStore)
    (h : lotFind c t = none) :
    upsertLot now c t =
      (⟨t.records ++ [mkLotRecord t.nextId now c], t.nextId + 1⟩,
       UpsertResult.created) := by
  simp [upsertLot, h]

theorem upsertLot_some_eq (now : Nat) (c : LotCandidate) (t : LotStore)
    (l : CanonicalLot) (h : lotFind c t = some l) (hm : lotMutEq c l = true) :
    upsertLot now c t = (t, UpsertResult.unchanged) := by
  simp [upsertLot, h, hm]

theorem upsertLot_some_ne (now : Nat) (c : LotCandidate) (t : LotStore)
    (l : CanonicalLot) (h : lotFind c t = some l) (hm : lotMutEq c l = false) :
    upsertLot now c t =
      (⟨t.records.map fun r =>
          if lotKeyMatches c r then lotApplyMutable now c r else r,
        t.nextId⟩, UpsertResult.updated) := by
  simp [upsertLot, h, hm]

/-! ## C1: natural-key uniqueness is preserved by every upsert sequence -/

theorem upsertAuction_keysUnique (now : Nat) (c : AuctionCandidate) (s : AuctionStore)
    (h : AuctionKeysUnique s) : AuctionKeysUnique (upsertAuction now c s).1 := by
  intro hh ee
  rcases hf : auctionFind c s with _ | a
  · have hzero := List.find?_eq_none.mp hf
    rw [upsertAuction_none now c s hf]
    simp only [auctionKeyCount, List.countP_append]
    by_cases hk : c.house_id = hh ∧ c.external_id = ee
    · obtain ⟨hk1, hk2⟩ := hk
      subst hk1
      subst hk2
      have h0 : (s.records.countP fun x =>
          x.house_id == c.house_id && x.external_id == c.external_id) = 0 := by
        rw [List.countP_eq_zero]
        intro x hx
        exact hzero x hx
      rw [h0]
      simp [mkAuctionRecord]
    · have h1 : ((mkAuctionRecord s.nextId now c).house_id == hh &&
          (mkAuctionRecord s.nextId now c).external_id == ee) = false := by
        rcases Decidable.em (c.house_id = hh) with h1 | h1
        · have h2 : c.external_id ≠ ee := fun h2 => hk ⟨h1, h2⟩
          simp [mkAuctionRecord, h2]
        · simp [mkAuctionRecord, h1]
      have hle := h hh ee
      simp only [auctionKeyCount] at hle
      simp [h1]
      exact hle
  · cases hm : auctionMutEq c a with
    | true =>
      rw [upsertAuction_some_eq now c s a hf hm]
      exact h hh ee
    | false =>
      rw [upsertAuction_some_ne now c s a hf hm]
      simp only [auctionKeyCount, List.countP_map]
      have hcong : ∀ r ∈ s.records,
          (((fun x => x.house_id == hh && x.external_id == ee) ∘ fun r =>
            if auctionKeyMatches c r then auctionApplyMutable now c r else r) r = true) ↔
          ((fun x : CanonicalAuction => x.house_id == hh && x.external_id == ee) r = true) := by
        intro r hr
        by_cases hkm : auctionKeyMatches c r
        · simp [Function.comp, hkm, auctionApplyMutable]
        · simp [Function.comp, hkm]
      rw [List.countP_congr hcong]
      exact h hh ee

theorem applyAuctionOps_keysUnique :
    ∀ (ops : List (Nat × AuctionCandidate)) (s : AuctionStore),
      AuctionKeysUnique s → AuctionKeysUnique (applyAuctionOps ops s)
  | [], _, h => h
  | (now, c) :: rest, s, h =>
    applyAuctionOps_keysUnique rest _ (upsertAuction_keysUnique now c s h)

theorem upsertLot_keysUnique (now : Nat) (c : LotCandidate) (t : LotStore)
    (h : LotKeysUnique t) : LotKeysUnique (upsertLot now c t).1 := by
  intro aid n
  rcases hf : lotFind c t with _ | l
  · have hzero := List.find?_eq_none.mp hf
    rw [upsertLot_none now c t hf]
    simp only [lotKeyCount, List.countP_append]
    by_cases hk : c.auction_id = aid ∧ c.lot_number = n
    · obtain ⟨hk1, hk2⟩ := hk
      subst hk1
      subst hk2
      have h0 : (t.records.countP fun x =>
          x.auction_id == c.auction_id && x.lot_number == c.lot_number) = 0 := by
        rw [List.countP_eq_zero]
        intro x hx
        exact hzero x hx
      rw [h0]
      simp [mkLotRecord]
    · have h1 : ((mkLotRecord t.nextId now c).auction_id == aid &&
          (mkLotRecord t.nextId now c).lot_number == n) = false := by
        rcases Decidable.em (c.auction_id = aid) with h1 | h1
        · have h2 : c.lot_number ≠ n := fun h2 => hk ⟨h1, h2⟩
          simp [mkLotRecord, h2]
        · simp [mkLotRecord, h1]
      have hle := h aid n
      simp only [lotKeyCount] at hle
      simp [h1]
      exact hle
  · cases hm : lotMutEq c l with
    | true =>
      rw [upsertLot_some_eq now c t l hf hm]
      exact h aid n
    | false =>
      rw [upsertLot_some_ne now c t l hf hm]
      simp only [lotKeyCount, List.countP_map]
      have hcong : ∀ r ∈ t.records,
          (((fun x => x.auction_id == aid && x.lot_number == n) ∘ fun r =>
            if lotKeyMatches c r then lotApplyMutable now c r else r) r = true) ↔
          ((fun x : CanonicalLot => x.auction_id == aid && x.lot_number == n) r = true) := by
        intro r hr
        by_cases hkm : lotKeyMatches c r
        · simp [Function.comp, hkm, lotApplyMutable]
        · simp [Function.comp, hkm]
      rw [List.countP_congr hcong]
      exact h aid n

theorem applyLotOps_keysUnique :
    ∀ (ops : List (Nat × LotCandidate)) (t : LotStore),
      LotKeysUnique t → LotKeysUnique (applyLotOps ops t)
  | [], _, h => h
  | (now, c) :: rest, t, h =>
    applyLotOps_keysUnique rest _ (upsertLot_keysUnique now c t h)

/-- C1: for every pair (house id, external id), after any serialized sequence
of upserts, which per-key atomicity also makes the reduction of any
concurrent interleaving of runs, at most one canonical auction carries that
natural key; likewise at most one lot per (auction id, lot number). -/
theorem C1_natural_key_unique (aops : List (Nat × AuctionCandidate))
    (lops : List (Nat × LotCandidate)) (s : AuctionStore) (t : LotStore)
    (hs : AuctionKeysUnique s) (ht : LotKeysUnique t) :
    AuctionKeysUnique (applyAuctionOps aops s) ∧
      LotKeysUnique (applyLotOps lops t) :=
  ⟨applyAuctionOps_keysUnique aops s hs, applyLotOps_keysUnique lops t ht⟩

theorem C1_natural_key_unique_witness :
    AuctionKeysUnique
      (applyAuctionOps [(0, exIdenticalCand), (1, exChangedCand)] emptyAuctionStore) ∧
    LotKeysUnique (applyLotOps [(0, exLotCand), (1, exLotCand)] emptyLotStore) :=
  C1_natural_key_unique [(0, exIdenticalCand), (1, exChangedCand)]
    [(0, exLotCand), (1, exLotCand)] emptyAuctionStore emptyLotStore
    (fun hh ee => by simp [auctionKeyCount, emptyAuctionStore])
    (fun aid n => by simp [lotKeyCount, emptyLotStore])

/-! ## C2: run characterization and idempotent re-runs -/

theorem runAuctionScrape_cons (now : Nat) (c : AuctionCandidate)
    (rest : List AuctionCandidate) (s : AuctionStore) :
    runAuctionScrape now (c :: rest) s =
      ((runAuctionScrape now rest (upsertAuction now c s).1).1,
       ⟨(runAuctionScrape now rest (upsertAuction now c s).1).2.processed + 1,
        (runAuctionScrape now rest (upsertAuction now c s).1).2.created +
          (if (upsertAuction now c s).2 = UpsertResult.created then 1 else 0),
        (runAuctionScrape now rest (upsertAuction now c s).1).2.updated +
          (if (upsertAuction now c s).2 = UpsertResult.updated then 1 else 0)⟩) := rfl

theorem auctionKeyMatches_funext (a b : AuctionCandidate) (h : auctionKey a = auctionKey b) :
    auctionKeyMatches a = auctionKeyMatches b := by
  funext x
  have h1 : a.house_id = b.house_id := congrArg Prod.fst h
  have h2 : a.external_id = b.external_id := congrArg Prod.snd h
  simp [auctionKeyMatches, h1, h2]

theorem keyNeOfMatches (c d : AuctionCandidate) (r : CanonicalAuction)
    (hc : auctionKeyMatches c r = true) (hne : auctionKey c ≠ auctionKey d) :
    auctionKeyMatches d r = false := by
  cases hd : auctionKeyMatches d r
  · rfl
  · exfalso
    apply hne
    simp only [auctionKeyMatches, Bool.and_eq_true, beq_iff_eq] at hc hd
    simp only [auctionKey, Prod.mk.injEq]
    exact ⟨hc.1.symm.trans hd.1, hc.2.symm.trans hd.2⟩

theorem auctionApplyMutable_keyMatches (now : Nat) (c d : AuctionCandidate)
    (r : CanonicalAuction) :
    auctionKeyMatches c
      (if auctionKeyMatches d r then auctionApplyMutable now d r else r) =
    auctionKeyMatches c r := by
  by_cases hkm : auctionKeyMatches d r = true
  · rw [if_pos hkm]
    simp [auctionApplyMutable, auctionKeyMatches]
  · rw [if_neg hkm]

theorem upsertAuction_reflects (now : Nat) (c : AuctionCandidate) (s : AuctionStore) :
    ∃ r, auctionFind c (upsertAuction now c s).1 = some r ∧
      auctionMutEq c r = true := by
  rcases hf : auctionFind c s with _ | a
  · refine ⟨mkAuctionRecord s.nextId now c, ?_, by simp [auctionMutEq, mkAuctionRecord]⟩
    rw [upsertAuction_none now c s hf]
    simp only [auctionFind] at hf ⊢
    rw [List.find?_append, hf]
    simp [List.find?, auctionKeyMatches, mkAuctionRecord]
  · cases hm : auctionMutEq c a with
    | true =>
      refine ⟨a, ?_, hm⟩
      rw [upsertAuction_some_eq now c s a hf hm]
      exact hf
    | false =>
      have hk : auctionKeyMatches c a = true := List.find?_some hf
      refine ⟨auctionApplyMutable now c a, ?_, by simp [auctionMutEq, auctionApplyMutable]⟩
      rw [upsertAuction_some_ne now c s a hf hm]
      simp only [auctionFind] at hf ⊢
      rw [findMapComm]
      have hpred : (fun r => auctionKeyMatches c
          (if auctionKeyMatches c r then auctionApplyMutable now c r else r)) =
          auctionKeyMatches c := by
        funext r
        exact auctionApplyMutable_keyMatches now c c r
      rw [hpred, hf]
      simp [hk]

theorem upsertAuction_other (now : Nat) (d c : AuctionCandidate) (s : AuctionStore)
    (hne : auctionKey c ≠ auctionKey d) :
    auctionFind c (upsertAuction now d s).1 = auctionFind c s := by
  rcases hf : auctionFind d s with _ | a
  · rw [upsertAuction_none now d s hf]
    simp only [auctionFind]
    rw [List.find?_append]
    have hmk : auctionKeyMatches d (mkAuctionRecord s.nextId now d) = true := by
      simp [auctionKeyMatches, mkAuctionRecord]
    have hno : auctionKeyMatches c (mkAuctionRecord s.nextId now d) = false :=
      keyNeOfMatches d c _ hmk (Ne.symm hne)
    simp [List.find?, hno]
  · cases hm : auctionMutEq d a with
    | true => rw [upsertAuction_some_eq now d s a hf hm]
    | false =>
      rw [upsertAuction_some_ne now d s a hf hm]
      simp only [auctionFind]
      rw [findMapComm]
      have hpred : (fun r => auctionKeyMatches c
          (if auctionKeyMatches d r then auctionApplyMutable now d r else r)) =
          auctionKeyMatches c := by
        funext r
        exact auctionApplyMutable_keyMatches now c d r
      rw [hpred]
      rcases hc : s.records.find? (auctionKeyMatches c) with _ | r
      · rfl
      · have hcr : auctionKeyMatches c r = true := List.find?_some hc
        have hdr : auctionKeyMatches d r = false := keyNeOfMatches c d r hcr hne
        simp [hdr]

theorem runAuctionScrape_stable (now : Nat) :
    ∀ (items : List AuctionCandidate) (s : AuctionStore) (c : AuctionCandidate),
      (∀ d ∈ items, auctionKey c ≠ auctionKey d) →
      auctionFind c (runAuctionScrape now items s).1 = auctionFind c s
  | [], _, _, _ => rfl
  | d :: rest, s, c, h => by
    show auctionFind c (runAuctionScrape now rest (upsertAuction now d s).1).1 =
      auctionFind c s
    rw [runAuctionScrape_stable now rest _ c
      fun x hx => h x (List.mem_cons_of_mem d hx)]
    exact upsertAuction_other now d c s (h d (List.mem_cons_self d rest))

theorem runAuctionScrape_reflects (now : Nat) :
    ∀ (items : List AuctionCandidate) (s : AuctionStore),
      AuctionKeysDistinct items →
      ∀ c ∈ items, ∃ r, auctionFind c (runAuctionScrape now items s).1 = some r ∧
        auctionMutEq c r = true
  | [], _, _, c, hc => absurd hc (List.not_mem_nil c)
  | d :: rest, s, hdist, c, hc => by
    rw [AuctionKeysDistinct, List.pairwise_cons] at hdist
    obtain ⟨hd, hrest⟩ := hdist
    rcases List.mem_cons.mp hc with hceq | hcmem
    · subst hceq
      obtain ⟨r, hr, hm⟩ := upsertAuction_reflects now c s
      refine ⟨r, ?_, hm⟩
      show auctionFind c (runAuctionScrape now rest (upsertAuction now c s).1).1 = some r
      rw [runAuctionScrape_stable now rest _ c hd]
      exact hr
    · obtain ⟨r, hr, hm⟩ :=
        runAuctionScrape_reflects now rest (upsertAuction now d s).1 hrest c hcmem
      exact ⟨r, hr, hm⟩

theorem forallTwoMemLeft {R : α → β → Prop} :
    ∀ {l1 : List α} {l2 : List β}, List.Forall₂ R l1 l2 →
      ∀ a ∈ l1, ∃ b ∈ l2, R a b := by
  intro l1 l2 h
  induction h with
  | nil => exact fun a ha => absurd ha (List.not_mem_nil a)
  | @cons a b t1 t2 hab htail ih =>
    intro x hx
    rcases List.mem_cons.mp hx with heq | hmem
    · subst heq
      exact ⟨b, List.mem_cons_self b t2, hab⟩
    · obtain ⟨y, hy, hr⟩ := ih x hmem
      exact ⟨y, List.mem_cons_of_mem b hy, hr⟩

theorem auctionMutEq_shift (a b : AuctionCandidate) (r : CanonicalAuction)
    (h : auctionMutEq a r = true) : auctionMutEq b r = candMutEq a b := by
  simp only [auctionMutEq, Bool.and_eq_true, beq_iff_eq] at h
  obtain ⟨⟨⟨h1, h2⟩, h3⟩, h4⟩ := h
  simp [auctionMutEq, candMutEq, h1, h2, h3, h4]

theorem runAuctionScrape_second_counts (now : Nat) :
    ∀ (items1 items2 : List AuctionCandidate) (s : AuctionStore),
      List.Forall₂ (fun a b => auctionKey a = auctionKey b) items1 items2 →
      AuctionKeysDistinct items2 →
      (∀ c ∈ items1, ∃ r, auctionFind c s = some r ∧ auctionMutEq c r = true) →
      (runAuctionScrape now items2 s).2 =
        ⟨items2.length, 0, (items1.zip items2).countP fun p => !candMutEq p.1 p.2⟩ := by
  intro items1 items2 s hF
  induction hF generalizing s with
  | nil => intro _ _; rfl
  | @cons a b l1 l2 hab htail ih =>
    intro hdist href
    rw [AuctionKeysDistinct, List.pairwise_cons] at hdist
    obtain ⟨hb, hdist2⟩ := hdist
    obtain ⟨r, hra, hm⟩ := href a (List.mem_cons_self a l1)
    have hfb : auctionFind b s = some r := by
      simp only [auctionFind] at hra ⊢
      rw [← auctionKeyMatches_funext a b hab]
      exact hra
    have hmb : auctionMutEq b r = candMutEq a b := auctionMutEq_shift a b r hm
    have hrest : ∀ c ∈ l1, ∃ x, auctionFind c s = some x ∧ auctionMutEq c x = true :=
      fun c hc => href c (List.mem_cons_of_mem a hc)
    have hkeyne : ∀ c ∈ l1, auctionKey c ≠ auctionKey b := by
      intro c hc
      obtain ⟨b2, hb2, hkey⟩ := forallTwoMemLeft htail c hc
      rw [hkey]
      exact fun h2 => hb b2 hb2 h2.symm
    cases hcm : candMutEq a b with
    | true =>
      have hmb2 : auctionMutEq b r = true := by rw [hmb, hcm]
      rw [runAuctionScrape_cons, upsertAuction_some_eq now b s r hfb hmb2]
      simp [ih s hdist2 hrest, List.countP_cons, hcm]
    | false =>
      have hmb2 : auctionMutEq b r = false := by rw [hmb, hcm]
      have hrest2 : ∀ c ∈ l1, ∃ x,
          auctionFind c (upsertAuction now b s).1 = some x ∧
            auctionMutEq c x = true := by
        intro c hc
        obtain ⟨x, hx, hmx⟩ := hrest c hc
        refine ⟨x, ?_, hmx⟩
        rw [upsertAuction_other now b c s (hkeyne c hc)]
        exact hx
      have hihres := ih (upsertAuction now b s).1 hdist2 hrest2
      have hres : (upsertAuction now b s).2 = UpsertResult.updated := by
        rw [upsertAuction_some_ne now b s r hfb hmb2]
      rw [runAuctionScrape_cons, hihres]
      simp [hres, List.countP_cons, hcm]

/-- C2: re-running a job whose items carry the same natural keys yields zero
creates on the second run and an updated count equal to the number of items
whose mutable fields actually differ from the first run; in particular the
worked example of the spec gives counts created=2, updated=0 on the first
run and created=0, updated=1 on the second. -/
theorem C2_idempotent_counts :
    (∀ (now1 now2 : Nat) (items1 items2 : List AuctionCandidate) (s : AuctionStore),
      List.Forall₂ (fun a b => auctionKey a = auctionKey b) items1 items2 →
      AuctionKeysDistinct items1 → AuctionKeysDistinct items2 →
      (runAuctionScrape now2 items2 (runAuctionScrape now1 items1 s).1).2 =
        ⟨items2.length, 0, (items1.zip items2).countP fun p => !candMutEq p.1 p.2⟩) ∧
    (runAuctionScrape 0 exFirstRun emptyAuctionStore).2 = ⟨2, 2, 0⟩ ∧
    (runAuctionScrape 1 exSecondRun
      (runAuctionScrape 0 exFirstRun emptyAuctionStore).1).2 = ⟨2, 0, 1⟩ := by
  refine ⟨?_, by decide, by decide⟩
  intro now1 now2 items1 items2 s hF h1 h2
  exact runAuctionScrape_second_counts now2 items1 items2 _ hF h2
    (runAuctionScrape_reflects now1 items1 s h1)

theorem C2_idempotent_counts_witness :
    (runAuctionScrape 1 exFirstRun
      (runAuctionScrape 0 exFirstRun emptyAuctionStore).1).2 =
      ⟨2, 0, (exFirstRun.zip exFirstRun).countP fun p => !candMutEq p.1 p.2⟩ :=
  C2_idempotent_counts.1 0 1 exFirstRun exFirstRun emptyAuctionStore
    (by decide) (by unfold AuctionKeysDistinct; decide)
    (by unfold AuctionKeysDistinct; decide)

/-! ## C3: per-item failures never fail a job -/

theorem runJobItems_cons_err (now : Nat) (msg : String) (rest : List RawParse)
    (s : AuctionStore) :
    runJobItems now (Except.error msg :: rest) s =
      ((runJobItems now rest s).1,
       ⟨(runJobItems now rest s).2.status,
        (runJobItems now rest s).2.processed + 1,
        (runJobItems now rest s).2.created,
        (runJobItems now rest s).2.updated,
        msg :: (runJobItems now rest s).2.errors⟩) := rfl

theorem runJobItems_cons_ok (now : Nat) (c : AuctionCandidate) (rest : List RawParse)
    (s : AuctionStore) :
    runJobItems now (Except.ok c :: rest) s =
      ((runJobItems now rest (upsertAuction now c s).1).1,
       ⟨(runJobItems now rest (upsertAuction now c s).1).2.status,
        (runJobItems now rest (upsertAuction now c s).1).2.processed + 1,
        (runJobItems now rest (upsertAuction now c s).1).2.created +
          (if (upsertAuction now c s).2 = UpsertResult.created then 1 else 0),
        (runJobItems now rest (upsertAuction now c s).1).2.updated +
          (if (upsertAuction now c s).2 = UpsertResult.updated then 1 else 0),
        (runJobItems now rest (upsertAuction now c s).1).2.errors⟩) := rfl

theorem runJobItems_spec (now : Nat) :
    ∀ (items : List RawParse) (s : AuctionStore),
      (runJobItems now items s).2.status = "completed" ∧
      (runJobItems now items s).2.processed = items.length ∧
      (runJobItems now items s).2.errors.length = items.countP isParseFailure
  | [], _ => ⟨rfl, rfl, rfl⟩
  | Except.error msg :: rest, s => by
    obtain ⟨h1, h2, h3⟩ := runJobItems_spec now rest s
    refine ⟨?_, ?_, ?_⟩ <;>
      simp [runJobItems_cons_err, h1, h2, h3, List.countP_cons, isParseFailure]
  | Except.ok c :: rest, s => by
    obtain ⟨h1, h2, h3⟩ := runJobItems_spec now rest (upsertAuction now c s).1
    refine ⟨?_, ?_, ?_⟩ <;>
      simp [runJobItems_cons_ok, h1, h2, h3, List.countP_cons, isParseFailure]

/-- C3: a job whose adapter yields its item sequence always ends completed,
with processed equal to the number of yielded items and the error summary
recording exactly the items that failed parsing; only a fetch-level failure,
which prevents the adapter from producing any item, marks the job failed. On
the worked example of five raw auctions with item 3 failing, the job
completes with processed=5, exactly one recorded error, and items 1, 2, 4
and 5 committed to the store. -/
theorem C3_partial_failure_accounting :
    (∀ (now : Nat) (items : List RawParse) (s : AuctionStore),
      (runJob now (Except.ok items) s).2.status = "completed" ∧
      (runJob now (Except.ok items) s).2.processed = items.length ∧
      (runJob now (Except.ok items) s).2.errors.length =
        items.countP isParseFailure) ∧
    (∀ (now : Nat) (msg : String) (s : AuctionStore),
      runJob now (Except.error msg) s = (s, ⟨"failed", 0, 0, 0, [msg]⟩)) ∧
    (runJob 0 (Except.ok exPartialItems) emptyAuctionStore).2 =
      ⟨"completed", 5, 4, 0, ["parse failure at item 3"]⟩ ∧
    ((runJob 0 (Except.ok exPartialItems) emptyAuctionStore).1.records.map
      fun r => r.external_id) = ["1", "2", "4", "5"] := by
  refine ⟨?_, fun now msg s => rfl, by decide, by decide⟩
  intro now items s
  exact runJobItems_spec now items s

/-! ## C6: mutual exclusion of jobs per source -/

theorem triggerSource_inv (o : Orch) (src : Nat) (h : OrchInv o) :
    OrchInv (triggerSource o src).1 := by
  intro src2
  rcases hf : activeForSource o src with _ | j
  · rw [show (triggerSource o src).1 =
        ⟨o.jobs ++ [⟨o.nextId, src, OrchJobState.queued⟩], o.nextId + 1⟩ from by
      simp [triggerSource, hf]]
    simp only [activeCount, List.countP_append]
    by_cases hsrc : src = src2
    · subst hsrc
      have h0 : (o.jobs.countP fun j => j.source == src && jobActive j) = 0 := by
        rw [List.countP_eq_zero]
        exact List.find?_eq_none.mp hf
      rw [h0]
      simp [List.countP_cons, jobActive]
    · have h1 : ((⟨o.nextId, src, OrchJobState.queued⟩ : OrchJob).source == src2 &&
          jobActive ⟨o.nextId, src, OrchJobState.queued⟩) = false := by
        simp [jobActive, hsrc]
      simp only [List.countP_cons, List.countP_nil, h1, if_false]
      simpa using h src2
  · rw [show (triggerSource o src).1 = o from by simp [triggerSource, hf]]
    exact h src2

theorem startJob_inv (o : Orch) (jid : Nat) (h : OrchInv o) :
    OrchInv (startJob o jid) := by
  intro src2
  simp only [startJob, activeCount, List.countP_map]
  have hcong : ∀ j ∈ o.jobs,
      (((fun j => j.source == src2 && jobActive j) ∘ fun j =>
        if j.jobId == jid && j.state == OrchJobState.queued then
          { j with state := OrchJobState.running }
        else j) j = true) ↔
      ((fun j : OrchJob => j.source == src2 && jobActive j) j = true) := by
    intro j hj
    simp only [Function.comp_apply]
    by_cases hc : (j.jobId == jid && j.state == OrchJobState.queued) = true
    · rw [if_pos hc]
      simp only [Bool.and_eq_true, beq_iff_eq] at hc
      simp [jobActive, hc.2]
    · rw [if_neg hc]
  rw [List.countP_congr hcong]
  exact h src2

theorem finishJob_inv (o : Orch) (jid : Nat) (final : OrchJobState) (h : OrchInv o) :
    OrchInv (finishJob o jid final) := by
  intro src2
  simp only [finishJob, activeCount, List.countP_map]
  refine le_trans (List.countP_mono_left ?_) (h src2)
  intro j hj hp
  simp only [Function.comp_apply] at hp
  by_cases hc : (j.jobId == jid && j.state == OrchJobState.running &&
      jobTerminal final) = true
  · rw [if_pos hc] at hp
    simp only [Bool.and_eq_true] at hc
    exfalso
    have hterm := hc.2
    revert hp
    cases final <;> simp [jobTerminal, jobActive] at hterm ⊢
  · rw [if_neg hc] at hp
    exact hp

theorem applyOrchOp_inv (o : Orch) (op : OrchOp) (h : OrchInv o) :
    OrchInv (applyOrchOp o op) := by
  cases op with
  | trigger src => exact triggerSource_inv o src h
  | start jid => exact startJob_inv o jid h
  | finish jid final => exact finishJob_inv o jid final h

theorem applyOrchOps_inv :
    ∀ (ops : List OrchOp) (o : Orch), OrchInv o → OrchInv (applyOrchOps o ops)
  | [], _, h => h
  | op :: rest, o, h => applyOrchOps_inv rest _ (applyOrchOp_inv o op h)

theorem runningLeActive (o : Orch) (src : Nat) :
    runningCount o src ≤ activeCount o src := by
  refine List.countP_mono_left ?_
  intro j hj hp
  simp only [Bool.and_eq_true] at hp ⊢
  exact ⟨hp.1, by simp [jobActive, hp.2]⟩

/-- C6: starting from any scheduler state with at most one in-flight job per
source, every sequence of trigger, start and finish operations keeps at most
one job running per source at every instant; and an on-demand trigger for a
source whose job is queued or running is rejected as a no-op that returns
the identity of the existing job and leaves the scheduler state unchanged. -/
theorem C6_mutual_exclusion :
    (∀ (o : Orch) (ops : List OrchOp) (src : Nat),
      OrchInv o → runningCount (applyOrchOps o ops) src ≤ 1) ∧
    (∀ (o : Orch) (src : Nat) (j : OrchJob),
      activeForSource o src = some j →
      triggerSource o src = (o, TriggerResult.rejected j.jobId)) := by
  constructor
  · intro o ops src h
    exact le_trans (runningLeActive (applyOrchOps o ops) src)
      (applyOrchOps_inv ops o h src)
  · intro o src j h
    simp [triggerSource, h]

theorem C6_mutual_exclusion_witness :
    runningCount (applyOrchOps emptyOrch
      [OrchOp.trigger 1, OrchOp.start 1, OrchOp.trigger 1]) 1 ≤ 1 ∧
    triggerSource exRunningOrch 1 = (exRunningOrch, TriggerResult.rejected 5) :=
  ⟨C6_mutual_exclusion.1 emptyOrch [OrchOp.trigger 1, OrchOp.start 1, OrchOp.trigger 1] 1
     (fun src => by simp [activeCount, emptyOrch]),
   C6_mutual_exclusion.2 exRunningOrch 1 ⟨5, 1, OrchJobState.running⟩ (by decide)⟩

/-! ## C7: fatal failures of one source do not leak into other sources -/

theorem eraseAuctionId_keyMatches (c : AuctionCandidate) (r : CanonicalAuction) :
    auctionKeyMatches c (eraseAuctionId r) = auctionKeyMatches c r := by
  simp [eraseAuctionId, auctionKeyMatches]

theorem eraseAuctionId_mutEq (c : AuctionCandidate) (r : CanonicalAuction) :
    auctionMutEq c (eraseAuctionId r) = auctionMutEq c r := by
  simp [eraseAuctionId, auctionMutEq]

theorem eraseAuctionId_applyMutable (now : Nat) (c : AuctionCandidate)
    (r : CanonicalAuction) :
    eraseAuctionId (auctionApplyMutable now c r) =
      auctionApplyMutable now c (eraseAuctionId r) := by
  simp [eraseAuctionId, auctionApplyMutable]

theorem eraseAuctionId_mk (i now : Nat) (c : AuctionCandidate) :
    eraseAuctionId (mkAuctionRecord i now c) = mkAuctionRecord 0 now c := by
  simp [eraseAuctionId, mkAuctionRecord]

theorem auctionFind_houseView (c : AuctionCandidate) (s : AuctionStore) :
    (auctionFind c s).map eraseAuctionId =
      (houseView c.house_id s).find? (auctionKeyMatches c) := by
  have himp : ∀ a, auctionKeyMatches c a = true → (a.house_id == c.house_id) = true := by
    intro a ha
    simp only [auctionKeyMatches, Bool.and_eq_true] at ha
    exact ha.1
  have hpred : (fun a => auctionKeyMatches c (eraseAuctionId a)) = auctionKeyMatches c :=
    funext fun a => eraseAuctionId_keyMatches c a
  calc (auctionFind c s).map eraseAuctionId
      = ((s.records.filter fun r => r.house_id == c.house_id).find?
          (auctionKeyMatches c)).map eraseAuctionId := by
        rw [auctionFind, findFilterComm _ _ _ himp]
    _ = ((s.records.filter fun r => r.house_id == c.house_id).find?
          fun a => auctionKeyMatches c (eraseAuctionId a)).map eraseAuctionId := by
        rw [hpred]
    _ = (houseView c.house_id s).find? (auctionKeyMatches c) := by
        rw [houseView, findMapComm]

theorem upsertAuction_visEq (now : Nat) (c : AuctionCandidate) (s1 s2 : AuctionStore)
    (hsrc : houseView c.house_id s1 = houseView c.house_id s2) :
    (upsertAuction now c s1).2 = (upsertAuction now c s2).2 ∧
    ∀ b, houseView b s1 = houseView b s2 →
      houseView b (upsertAuction now c s1).1 = houseView b (upsertAuction now c s2).1 := by
  have hfind : (auctionFind c s1).map eraseAuctionId =
      (auctionFind c s2).map eraseAuctionId := by
    rw [auctionFind_houseView, auctionFind_houseView, hsrc]
  rcases hf1 : auctionFind c s1 with _ | a1 <;> rcases hf2 : auctionFind c s2 with _ | a2
  · rw [upsertAuction_none now c s1 hf1, upsertAuction_none now c s2 hf2]
    refine ⟨rfl, ?_⟩
    intro b hb
    simp only [houseView, List.filter_append, List.map_append] at hb ⊢
    rw [hb]
    congr 1
    cases hmkb : ((mkAuctionRecord s1.nextId now c).house_id == b) with
    | false =>
      have hmkb2 : ((mkAuctionRecord s2.nextId now c).house_id == b) = false := hmkb
      simp [List.filter, hmkb, hmkb2]
    | true =>
      have hmkb2 : ((mkAuctionRecord s2.nextId now c).house_id == b) = true := hmkb
      simp [List.filter, hmkb, hmkb2, eraseAuctionId_mk]
  · rw [hf1, hf2] at hfind
    simp at hfind
  · rw [hf1, hf2] at hfind
    simp at hfind
  · have heq : eraseAuctionId a1 = eraseAuctionId a2 := by
      rw [hf1, hf2] at hfind
      simpa using hfind
    have hmeq : auctionMutEq c a1 = auctionMutEq c a2 := by
      rw [← eraseAuctionId_mutEq, heq, eraseAuctionId_mutEq]
    cases hm : auctionMutEq c a1 with
    | true =>
      have hm2 : auctionMutEq c a2 = true := by rw [← hmeq]; exact hm
      rw [upsertAuction_some_eq now c s1 a1 hf1 hm,
        upsertAuction_some_eq now c s2 a2 hf2 hm2]
      exact ⟨rfl, fun b hb => hb⟩
    | false =>
      have hm2 : auctionMutEq c a2 = false := by rw [← hmeq]; exact hm
      rw [upsertAuction_some_ne now c s1 a1 hf1 hm,
        upsertAuction_some_ne now c s2 a2 hf2 hm2]
      refine ⟨rfl, ?_⟩
      intro b hb
      have hq : ∀ r : CanonicalAuction,
          ((if auctionKeyMatches c r then auctionApplyMutable now c r else r).house_id
            == b) = (r.house_id == b) := by
        intro r
        by_cases hk : auctionKeyMatches c r = true
        · rw [if_pos hk]
          simp [auctionApplyMutable]
        · rw [if_neg hk]
      have hfun : (eraseAuctionId ∘ fun r =>
          if auctionKeyMatches c r then auctionApplyMutable now c r else r) =
          ((fun x => if auctionKeyMatches c x then auctionApplyMutable now c x else x) ∘
            eraseAuctionId) := by
        funext r
        simp only [Function.comp_apply]
        by_cases hk : auctionKeyMatches c r = true
        · rw [if_pos hk, if_pos (by rw [eraseAuctionId_keyMatches]; exact hk)]
          exact eraseAuctionId_applyMutable now c r
        · rw [if_neg hk, if_neg (by rw [eraseAuctionId_keyMatches]; exact hk)]
      simp only [houseView] at hb ⊢
      rw [filterMapComm _ _ _ hq, filterMapComm _ _ _ hq, List.map_map, List.map_map,
        hfun, ← List.map_map, ← List.map_map, hb]

theorem upsertAuction_houseFrame (now : Nat) (c : AuctionCandidate) (s : AuctionStore)
    (b : Nat) (hb : c.house_id ≠ b) :
    houseView b (upsertAuction now c s).1 = houseView b s := by
  rcases hf : auctionFind c s with _ | a
  · rw [upsertAuction_none now c s hf]
    have hmkb : ((mkAuctionRecord s.nextId now c).house_id == b) = false := by
      simp [mkAuctionRecord, hb]
    simp [houseView, List.filter_append, List.filter, hmkb]
  · cases hm : auctionMutEq c a with
    | true => rw [upsertAuction_some_eq now c s a hf hm]
    | false =>
      rw [upsertAuction_some_ne now c s a hf hm]
      have hq : ∀ r : CanonicalAuction,
          ((if auctionKeyMatches c r then auctionApplyMutable now c r else r).house_id
            == b) = (r.house_id == b) := by
        intro r
        by_cases hk : auctionKeyMatches c r = true
        · rw [if_pos hk]
          simp [auctionApplyMutable]
        · rw [if_neg hk]
      simp only [houseView]
      rw [filterMapComm _ _ _ hq]
      have hfix : ∀ r ∈ s.records.filter fun x => x.house_id == b,
          (if auctionKeyMatches c r then auctionApplyMutable now c r else r) = r := by
        intro r hr
        have hrb : (r.house_id == b) = true := (List.mem_filter.mp hr).2
        have hrb2 : r.house_id = b := by simpa using hrb
        have hk : auctionKeyMatches c r = false := by
          cases hk : auctionKeyMatches c r
          · rfl
          · exfalso
            simp only [auctionKeyMatches, Bool.and_eq_true, beq_iff_eq] at hk
            exact hb (hk.1 ▸ hrb2)
        rw [if_neg (by rw [hk]; exact Bool.false_ne_true)]
      rw [mapFixId _ _ hfix]

theorem runJobItems_visEq (now src : Nat) :
    ∀ (items : List RawParse) (s1 s2 : AuctionStore),
      (∀ it ∈ items, ∀ c, it = Except.ok c → c.house_id = src) →
      houseView src s1 = houseView src s2 →
      (∀ b, houseView b s1 = houseView b s2 →
        houseView b (runJobItems now items s1).1 =
          houseView b (runJobItems now items s2).1) ∧
      (runJobItems now items s1).2 = (runJobItems now items s2).2
  | [], _, _, _, _ => ⟨fun _ hb => hb, rfl⟩
  | Except.error msg :: rest, s1, s2, hwf, hsrc => by
    obtain ⟨hstores, houts⟩ := runJobItems_visEq now src rest s1 s2
      (fun it hit => hwf it (List.mem_cons_of_mem _ hit)) hsrc
    constructor
    · intro b hb
      show houseView b (runJobItems now rest s1).1 =
        houseView b (runJobItems now rest s2).1
      exact hstores b hb
    · simp only [runJobItems_cons_err]
      rw [houts]
  | Except.ok c :: rest, s1, s2, hwf, hsrc => by
    have hcs : c.house_id = src := hwf _ (List.mem_cons_self _ _) c rfl
    obtain ⟨hres, hviews⟩ := upsertAuction_visEq now c s1 s2 (by rw [hcs]; exact hsrc)
    obtain ⟨hstores, houts⟩ := runJobItems_visEq now src rest
      (upsertAuction now c s1).1 (upsertAuction now c s2).1
      (fun it hit => hwf it (List.mem_cons_of_mem _ hit))
      (hviews src hsrc)
    constructor
    · intro b hb
      show houseView b (runJobItems now rest (upsertAuction now c s1).1).1 =
        houseView b (runJobItems now rest (upsertAuction now c s2).1).1
      exact hstores b (hviews b hb)
    · simp only [runJobItems_cons_ok]
      rw [houts, hres]

theorem runJob_visEq (now src : Nat) (fetch : FetchResult) (s1 s2 : AuctionStore)
    (hwf : fetchWellFormed src fetch = true)
    (hsrc : houseView src s1 = houseView src s2) :
    (∀ b, houseView b s1 = houseView b s2 →
      houseView b (runJob now fetch s1).1 = houseView b (runJob now fetch s2).1) ∧
    (runJob now fetch s1).2 = (runJob now fetch s2).2 := by
  cases fetch with
  | error msg => exact ⟨fun _ hb => hb, rfl⟩
  | ok items =>
    have hwf2 : ∀ it ∈ items, ∀ c, it = Except.ok c → c.house_id = src := by
      intro it hit c hc
      subst hc
      simp only [fetchWellFormed, List.all_eq_true] at hwf
      have := hwf _ hit
      simpa using this
    exact runJobItems_visEq now src items s1 s2 hwf2 hsrc

theorem runJobItems_houseFrame (now src : Nat) :
    ∀ (items : List RawParse) (s : AuctionStore) (b : Nat),
      (∀ it ∈ items, ∀ c, it = Except.ok c → c.house_id = src) → src ≠ b →
      houseView b (runJobItems now items s).1 = houseView b s
  | [], _, _, _, _ => rfl
  | Except.error msg :: rest, s, b, hwf, hne => by
    show houseView b (runJobItems now rest s).1 = houseView b s
    exact runJobItems_houseFrame now src rest s b
      (fun it hit => hwf it (List.mem_cons_of_mem _ hit)) hne
  | Except.ok c :: rest, s, b, hwf, hne => by
    have hcs : c.house_id = src := hwf _ (List.mem_cons_self _ _) c rfl
    show houseView b (runJobItems now rest (upsertAuction now c s).1).1 = houseView b s
    rw [runJobItems_houseFrame now src rest _ b
      (fun it hit => hwf it (List.mem_cons_of_mem _ hit)) hne]
    exact upsertAuction_houseFrame now c s b (by rw [hcs]; exact hne)

theorem runJob_houseFrame (now src : Nat) (fetch : FetchResult) (s : AuctionStore)
    (b : Nat) (hwf : fetchWellFormed src fetch = true) (hne : src ≠ b) :
    houseView b (runJob now fetch s).1 = houseView b s := by
  cases fetch with
  | error msg => rfl
  | ok items =>
    have hwf2 : ∀ it ∈ items, ∀ c, it = Except.ok c → c.house_id = src := by
      intro it hit c hc
      subst hc
      simp only [fetchWellFormed, List.all_eq_true] at hwf
      have := hwf _ hit
      simpa using this
    exact runJobItems_houseFrame now src items s b hwf2 hne

theorem runSystem_cons (now src : Nat) (fetch : FetchResult)
    (rest : List (Nat × FetchResult)) (s : AuctionStore) :
    runSystem now ((src, fetch) :: rest) s =
      ((runSystem now rest (runJob now fetch s).1).1,
       (src, (runJob now fetch s).2) ::
         (runSystem now rest (runJob now fetch s).1).2) := rfl

theorem runSystem_isolated (now bad : Nat) (msg : String) :
    ∀ (sys : List (Nat × FetchResult)) (s1 s2 : AuctionStore),
      sysWellFormed sys = true →
      (∀ b, b ≠ bad → houseView b s1 = houseView b s2) →
      List.Forall₂ (OutcomePairAgree bad) (runSystem now sys s1).2
        (runSystem now (injectFailure bad msg sys) s2).2 ∧
      (∀ b, b ≠ bad → houseView b (runSystem now sys s1).1 =
        houseView b (runSystem now (injectFailure bad msg sys) s2).1)
  | [], _, _, _, hviews => ⟨List.Forall₂.nil, hviews⟩
  | (src, fetch) :: rest, s1, s2, hwf, hviews => by
    have hwfh : fetchWellFormed src fetch = true := by
      simp only [sysWellFormed, List.all_eq_true] at hwf
      exact hwf _ (List.mem_cons_self _ _)
    have hwfrest : sysWellFormed rest = true := by
      simp only [sysWellFormed, List.all_eq_true] at hwf ⊢
      exact fun p hp => hwf p (List.mem_cons_of_mem _ hp)
    by_cases hsrc : src = bad
    · subst hsrc
      have hinj : injectFailure src msg ((src, fetch) :: rest) =
          (src, Except.error msg) :: injectFailure src msg rest := by
        simp [injectFailure]
      rw [hinj, runSystem_cons, runSystem_cons]
      have hviews2 : ∀ b, b ≠ src → houseView b (runJob now fetch s1).1 =
          houseView b (runJob now (Except.error msg) s2).1 := by
        intro b hb
        show houseView b (runJob now fetch s1).1 = houseView b s2
        rw [runJob_houseFrame now src fetch s1 b hwfh (fun h => hb h.symm)]
        exact hviews b hb
      obtain ⟨hforall, hrest⟩ :=
        runSystem_isolated now src msg rest _ _ hwfrest hviews2
      exact ⟨List.Forall₂.cons ⟨rfl, fun hne => absurd rfl hne⟩ hforall, hrest⟩
    · have hinj : injectFailure bad msg ((src, fetch) :: rest) =
          (src, fetch) :: injectFailure bad msg rest := by
        simp [injectFailure, hsrc]
      rw [hinj, runSystem_cons, runSystem_cons]
      obtain ⟨hstores, houts⟩ :=
        runJob_visEq now src fetch s1 s2 hwfh (hviews src hsrc)
      have hviews2 : ∀ b, b ≠ bad → houseView b (runJob now fetch s1).1 =
          houseView b (runJob now fetch s2).1 := by
        intro b hb
        exact hstores b (hviews b hb)
      obtain ⟨hforall, hrest⟩ :=
        runSystem_isolated now bad msg rest _ _ hwfrest hviews2
      exact ⟨List.Forall₂.cons ⟨rfl, fun _ => houts⟩ hforall, hrest⟩

theorem runSystem_completes (now : Nat) :
    ∀ (sys : List (Nat × FetchResult)) (s : AuctionStore),
      List.Forall₂ (fun e p => e.1 = p.1 ∧
        ∀ items, e.2 = Except.ok items → p.2.status = "completed")
        sys (runSystem now sys s).2
  | [], _ => List.Forall₂.nil
  | (src, fetch) :: rest, s => by
    rw [runSystem_cons]
    refine List.Forall₂.cons ⟨rfl, ?_⟩ (runSystem_completes now rest _)
    intro items hit
    subst hit
    exact (runJobItems_spec now items s).1

/-- C7: injecting a fatal adapter failure for one source changes nothing for
any other source: pairing the run ledgers of the unperturbed system and the
system with the failure injected, every entry of a source other than the
failing one carries an identical job outcome; moreover, in any system run,
every source whose adapter yields its items ends with a completed job. -/
theorem C7_source_isolation :
    (∀ (now bad : Nat) (msg : String) (sys : List (Nat × FetchResult))
      (s : AuctionStore),
      sysWellFormed sys = true →
      List.Forall₂ (OutcomePairAgree bad) (runSystem now sys s).2
        (runSystem now (injectFailure bad msg sys) s).2) ∧
    (∀ (now : Nat) (sys : List (Nat × FetchResult)) (s : AuctionStore),
      List.Forall₂ (fun e p => e.1 = p.1 ∧
        ∀ items, e.2 = Except.ok items → p.2.status = "completed")
        sys (runSystem now sys s).2) := by
  constructor
  · intro now bad msg sys s hwf
    exact (runSystem_isolated now bad msg sys s s hwf fun b hb => rfl).1
  · intro now sys s
    exact runSystem_completes now sys s

theorem C7_source_isolation_witness :
    List.Forall₂ (OutcomePairAgree 1) (runSystem 0 exSys emptyAuctionStore).2
      (runSystem 0 (injectFailure 1 "fatal adapter failure" exSys)
        emptyAuctionStore).2 :=
  C7_source_isolation.1 0 1 "fatal adapter failure" exSys emptyAuctionStore (by decide)

/-! ## C9 and C10: frontend hook gates -/

/-- C9: for every search string of length 2 or less, including the empty
string, the useSearchLots hook disables its query; for every string of
length 3 or more (hence non-empty) the lot-search request is enabled. -/
theorem C9_search_query_gate (q : String) :
    (q.length ≤ 2 → useSearchLotsEnabled q = false) ∧
    (3 ≤ q.length → useSearchLotsEnabled q = true) := by
  constructor
  · intro h
    have hlt : ¬ (q.length > 2) := by omega
    simp [useSearchLotsEnabled, hlt]
  · intro h
    have hne : q ≠ "" := by
      intro he
      subst he
      exact absurd h (by decide)
    have hemp : q.isEmpty = false := by
      cases he : q.isEmpty
      · rfl
      · exact absurd ((String.isEmpty_iff q).mp he) hne
    have hlt : q.length > 2 := by omega
    simp [useSearchLotsEnabled, hemp, hlt]

theorem C9_search_query_gate_witness :
    useSearchLotsEnabled "ab" = false ∧ useSearchLotsEnabled "art" = true :=
  ⟨(C9_search_query_gate "ab").1 (by decide), (C9_search_query_gate "art").2 (by decide)⟩

/-- C10: the single-entity hooks useLot, useAuction and useHouse disable
their query for the falsy id 0 and enable it for every nonzero id. -/
theorem C10_id_gate :
    (useLotEnabled 0 = false ∧ useAuctionEnabled 0 = false ∧ useHouseEnabled 0 = false) ∧
    (∀ id : Int, id ≠ 0 →
      useLotEnabled id = true ∧ useAuctionEnabled id = true ∧ useHouseEnabled id = true) := by
  refine ⟨⟨rfl, rfl, rfl⟩, ?_⟩
  intro id h
  have hb : (id != 0) = true := by simpa using h
  exact ⟨hb, hb, hb⟩

theorem C10_id_gate_witness :
    useLotEnabled 7 = true ∧ useAuctionEnabled 7 = true ∧ useHouseEnabled 7 = true :=
  C10_id_gate.2 7 (by decide)

/-! ## C4: run ledger states -/

/-- C4 counterexample: the CHECK constraint of the scraping_logs table
rejects the statuses pending and running that the claim draws its state set
from, while the status started, which the code records at job start, lies
outside the claimed set; in particular the at-start state is started, not
running. -/
theorem C4_counterexample :
    scrapingLogStatusAllowed "running" = false ∧
    scrapingLogStatusAllowed "pending" = false ∧
    (mkScrapingLog 1 "auctions").status = "started" ∧
    ¬ ("started" ∈ ["pending", "running", "completed", "failed", "cancelled"]) := by
  refine ⟨rfl, rfl, rfl, by decide⟩

/-- C4 (amended): every scraping_logs status admitted by the schema is drawn
from the set started, completed, failed, cancelled; at job start the status
is started; and once the status is completed, failed or cancelled it is
terminal, admitting no further transition. -/
theorem C4_log_states :
    (∀ s : String, scrapingLogStatusAllowed s = true →
      s = "started" ∨ s = "completed" ∨ s = "failed" ∨ s = "cancelled") ∧
    (∀ house task, (mkScrapingLog house task).status = "started") ∧
    (∀ s t : String, scrapingLogTerminal s = true → scrapingLogStep s t = false) := by
  refine ⟨?_, fun house task => rfl, ?_⟩
  · intro s hs
    have hs2 := hs
    simp only [scrapingLogStatusAllowed, Bool.or_eq_true, beq_iff_eq] at hs2
    tauto
  · intro s t hs
    have hne : s ≠ "started" := by
      simp only [scrapingLogTerminal, Bool.or_eq_true, beq_iff_eq] at hs
      rcases hs with (h | h) | h <;> (subst h; decide)
    have hb : (s == "started") = false := by simpa using hne
    simp [scrapingLogStep, hb]

theorem C4_log_states_witness :
    ("failed" = "started" ∨ "failed" = "completed" ∨ "failed" = "failed" ∨
      "failed" = "cancelled") ∧
    (mkScrapingLog 2 "lots").status = "started" ∧
    scrapingLogStep "completed" "failed" = false :=
  ⟨C4_log_states.1 "failed" (by decide), C4_log_states.2.1 2 "lots",
   C4_log_states.2.2 "completed" "failed" (by decide)⟩

/-! ## C8: artist resolution -/

/-- C8: artist resolution first looks for an exact normalized-name match
among existing records, returning it with the store untouched, and only
creates a record when none matches; every record it creates carries
verified equal to false. -/
theorem C8_artist_resolution :
    (∀ (now : Nat) (name : String) (t : ArtistStore) (a : Artist),
      artistFind name t = some a → resolveArtist now name t = (t, a.id)) ∧
    (∀ (now : Nat) (name : String) (t : ArtistStore),
      artistFind name t = none →
      resolveArtist now name t =
        (⟨t.artists ++ [⟨t.nextId, normalizeArtistName name, false, now⟩],
          t.nextId + 1⟩, t.nextId) ∧
      ∀ art ∈ (resolveArtist now name t).1.artists,
        art ∉ t.artists → art.verified = false) := by
  constructor
  · intro now name t a h
    simp [resolveArtist, h]
  · intro now name t h
    refine ⟨by simp [resolveArtist, h], ?_⟩
    intro art hmem hnot
    simp only [resolveArtist, h, List.mem_append, List.mem_singleton] at hmem
    rcases hmem with hin | heq
    · exact absurd hin hnot
    · rw [heq]

theorem C8_artist_resolution_witness :
    resolveArtist 4 "New Painter" emptyArtistStore =
      (⟨[⟨1, normalizeArtistName "New Painter", false, 4⟩], 2⟩, 1) :=
  ((C8_artist_resolution).2 4 "New Painter" emptyArtistStore rfl).1

/-! ## C5: upsert create-versus-update discipline -/

/-- C5 counterexample: an upsert whose candidate matches an existing record
on the natural key and is identical on all mutable fields reports unchanged,
not updated; the claim that every key-matching upsert reports updated is
incompatible with the second-run update counts the spec itself fixes. -/
theorem C5_counterexample :
    auctionFind exIdenticalCand exStore = some exStoredAuction ∧
    (upsertAuction 9 exIdenticalCand exStore).2 = UpsertResult.unchanged ∧
    UpsertResult.unchanged ≠ UpsertResult.updated := by
  exact ⟨rfl, rfl, by decide⟩

/-- C5 (amended): when no record matches the natural key the upsert inserts a
fresh row and reports created; when a record matches and the mutable fields
differ it reports updated and rewrites exactly the key-matching rows through
auctionApplyMutable, which overwrites only the designated mutable fields and
preserves the internal id, the natural key and the created_at first-seen
timestamp; when a record matches and the mutable fields already agree the
store is left untouched and the operation reports unchanged rather than
updated. -/
theorem C5_upsert_fields (now : Nat) (c : AuctionCandidate) (s : AuctionStore) :
    (auctionFind c s = none →
      upsertAuction now c s =
        (⟨s.records ++ [mkAuctionRecord s.nextId now c], s.nextId + 1⟩,
         UpsertResult.created)) ∧
    (∀ a, auctionFind c s = some a → auctionMutEq c a = false →
      upsertAuction now c s =
        (⟨s.records.map fun r =>
            if auctionKeyMatches c r then auctionApplyMutable now c r else r,
          s.nextId⟩, UpsertResult.updated)) ∧
    (∀ a, auctionFind c s = some a → auctionMutEq c a = true →
      upsertAuction now c s = (s, UpsertResult.unchanged)) ∧
    (∀ r, (auctionApplyMutable now c r).id = r.id ∧
      (auctionApplyMutable now c r).house_id = r.house_id ∧
      (auctionApplyMutable now c r).external_id = r.external_id ∧
      (auctionApplyMutable now c r).created_at = r.created_at ∧
      (auctionApplyMutable now c r).title = c.title ∧
      (auctionApplyMutable now c r).status = c.status ∧
      (auctionApplyMutable now c r).start_date = c.start_date ∧
      (auctionApplyMutable now c r).total_lots = c.total_lots) := by
  refine ⟨?_, ?_, ?_, fun r => ⟨rfl, rfl, rfl, rfl, rfl, rfl, rfl, rfl⟩⟩
  · intro h
    simp [upsertAuction, h]
  · intro a h hm
    simp [upsertAuction, h, hm]
  · intro a h hm
    simp [upsertAuction, h, hm]

theorem C5_upsert_fields_witness :
    upsertAuction 9 exChangedCand exStore =
      (⟨[auctionApplyMutable 9 exChangedCand exStoredAuction], 8⟩,
       UpsertResult.updated) ∧
    (auctionApplyMutable 9 exChangedCand exStoredAuction).id = exStoredAuction.id ∧
    (auctionApplyMutable 9 exChangedCand exStoredAuction).created_at =
      exStoredAuction.created_at :=
  ⟨(C5_upsert_fields 9 exChangedCand exStore).2.1 exStoredAuction rfl (by decide),
   ((C5_upsert_fields 9 exChangedCand exStore).2.2.2 exStoredAuction).1,
   ((C5_upsert_fields 9 exChangedCand exStore).2.2.2 exStoredAuction).2.2.2.1⟩

end AuctionApp
